import Mathlib

/-!
Verification of the Comparison Orchestration & Incremental Reporting
Pipeline of the CodePlagDetector repository.

The development shallowly embeds `CodePlagiarismDetector.run`
(src/CodePlagDetector/codeplagiarism.py), the grouping / user-filter
stages it contains, and the surrounding error handling of
`plagiarism_checker` (src/app.py).  External collaborators (the
`copydetect` fingerprint/compare capability, `pathlib` metadata, the
S3 bucket, the checkpoint file system) are modelled as parameters of
the embedding, exactly as the orchestration code consumes them.
-/

namespace CodePlag

/-- Fingerprint data kept by `copydetect` for one file; the orchestrator
only ever reads `len(file_data[f].hashes)` (codeplagiarism.py line 243). -/
structure FileInfo where
  hashes : List Int
  deriving DecidableEq

/-- Result of one `compare_files` invocation (codeplagiarism.py lines
224-226): `hashes_overlap1` is a numpy array of distinct hash values,
modelled as a `Finset`; similarities are modelled as rationals. -/
structure PairResult where
  overlapHashes : Finset Int
  tokenOverlap : Nat
  testSimilarity : ℚ
  refSimilarity : ℚ
  testSlices : List (Nat × Nat)
  refSlices : List (Nat × Nat)
  deriving DecidableEq

/-- The `pathlib.Path` attributes consulted by the pair filter
(codeplagiarism.py lines 215-219). -/
structure FileMeta where
  name : String
  parent : String
  suffix : String
  deriving DecidableEq

/-- The detector state that `run` reads: fingerprint table, path
metadata, the external comparator, and the policy configuration.
`α` is the comparator's return type; it is `PairResult` for the normal
runs and `Except String PairResult` when modelling a comparator that
can raise. -/
structure DetectorEnvG (α : Type) where
  fileData : String → Option FileInfo
  fmeta : String → FileMeta
  compare : String → String → α
  sameNameOnly : Bool
  ignoreLeaf : Bool
  displayT : ℚ

/-- Detector environment with a total comparator. -/
abbrev DetectorEnv := DetectorEnvG PairResult

/-- Detector environment whose comparator may raise. -/
abbrev DetectorEnvE := DetectorEnvG (Except String PairResult)

/-- The `continue` guard of the inner reference loop (codeplagiarism.py
lines 211-221): skip when either file lacks fingerprints, the files are
identical, `same_name_only` and the base names differ, `ignore_leaf`
and the parents coincide, or the suffixes differ. -/
def shouldSkip {α : Type} (env : DetectorEnvG α) (t r : String) : Bool :=
  (env.fileData t).isNone || (env.fileData r).isNone || decide (t = r)
    || (env.sameNameOnly && decide ((env.fmeta t).name ≠ (env.fmeta r).name))
    || (env.ignoreLeaf && decide ((env.fmeta t).parent = (env.fmeta r).parent))
    || decide ((env.fmeta t).suffix ≠ (env.fmeta r).suffix)

/-- The strict display-threshold test of codeplagiarism.py line 228:
`sim1 > display_t or sim2 > display_t`. -/
def qualifies (dt s1 s2 : ℚ) : Bool :=
  decide (dt < s1) || decide (dt < s2)

/-- One element of the `results` list built at codeplagiarism.py
lines 230-237. -/
structure Entry where
  refFile : String
  overlap : Nat
  testSimilarity : ℚ
  refSimilarity : ℚ
  testSlices : List (Nat × Nat)
  refSlices : List (Nat × Nat)
  deriving DecidableEq

/-- Builds the `results.append({...})` record for one qualifying pair. -/
def mkEntry (r : String) (pr : PairResult) : Entry :=
  ⟨r, pr.tokenOverlap, pr.testSimilarity, pr.refSimilarity, pr.testSlices, pr.refSlices⟩

/-- Body of the reference loop (codeplagiarism.py lines 209-239) acting
on the accumulator `(results, copied_hashes)`. -/
def innerStep (env : DetectorEnv) (t : String)
    (acc : List Entry × Finset Int) (r : String) : List Entry × Finset Int :=
  if shouldSkip env t r then acc
  else
    let pr := env.compare t r
    if qualifies env.displayT pr.testSimilarity pr.refSimilarity then
      (acc.1 ++ [mkEntry r pr], acc.2 ∪ pr.overlapHashes)
    else acc

/-- The full reference loop for one test file, starting from the empty
`results` list and the empty `copied_hashes` array. -/
def innerLoop (env : DetectorEnv) (t : String) (refs : List String) :
    List Entry × Finset Int :=
  refs.foldl (innerStep env t) ([], ∅)

/-- The per-file record stored in `result_dict` (codeplagiarism.py
lines 244-247). -/
structure FileVerdict where
  score : ℚ
  results : List Entry
  deriving DecidableEq

/-- Processing of one test file (codeplagiarism.py lines 205-247):
run the reference loop; when both the copied-hash set and the evidence
list are non-empty, record `score = len(copied_hashes)/len(hashes)`;
otherwise the file is omitted.  The `none` fallback of the inner match
is unreachable: a non-empty copied-hash set forces the test file to
have a fingerprint entry. -/
def processTestFile (env : DetectorEnv) (t : String) (refs : List String) :
    Option FileVerdict :=
  let rc := innerLoop env t refs
  if rc.2.card ≠ 0 ∧ rc.1 ≠ [] then
    match env.fileData t with
    | some fi => some ⟨(rc.2.card : ℚ) / (fi.hashes.length : ℚ), rc.1⟩
    | none => none
  else none

/-- The test-file loop filling `result_dict` for one student: each file
with a recorded verdict is added under its (unique) path key. -/
def processStudentAux (env : DetectorEnv) (refs : List String) :
    List String → List (String × FileVerdict) → List (String × FileVerdict)
  | [], rd => rd
  | t :: ts, rd =>
    match processTestFile env t refs with
    | some v => processStudentAux env refs ts (rd ++ [(t, v)])
    | none => processStudentAux env refs ts rd

/-- The `result_dict` built for one student over their test files
(codeplagiarism.py lines 201, 205-247), keyed by test file. -/
def processStudent (env : DetectorEnv) (refs : List String)
    (testFiles : List String) : List (String × FileVerdict) :=
  processStudentAux env refs testFiles []

/-- Pairs that pass the skip filter and the strict threshold test:
exactly the pairwise results that contribute evidence. -/
def qualifiesFor (env : DetectorEnv) (t r : String) : Bool :=
  !shouldSkip env t r
    && qualifies env.displayT (env.compare t r).testSimilarity (env.compare t r).refSimilarity

/-- The qualifying references for one test file, in iteration order. -/
def qualifyingRefs (env : DetectorEnv) (t : String) (refs : List String) :
    List String :=
  refs.filter (qualifiesFor env t)

/-- Union of the overlap-hash sets contributed by a list of references. -/
def overlapUnion (env : DetectorEnv) (t : String) (rs : List String) :
    Finset Int :=
  rs.foldl (fun acc r => acc ∪ (env.compare t r).overlapHashes) ∅

/-- Number of `compare_files` invocations performed for one test file:
one per reference surviving the `continue` guard. -/
def comparisons {α : Type} (env : DetectorEnvG α) (t : String)
    (refs : List String) : Nat :=
  (refs.filter (fun r => !shouldSkip env t r)).length

/-- Total `compare_files` invocations performed for one student. -/
def studentComparisons {α : Type} (env : DetectorEnvG α) (refs : List String)
    (files : List String) : Nat :=
  (files.map (fun t => comparisons env t refs)).sum

/-- The local report path name `{student}.json` recorded in
`user_reports` when the student's verdict is non-empty
(codeplagiarism.py lines 202, 257). -/
def reportLocation (student : String) : String :=
  student ++ ".json"

/-- Mutable state of the per-student scan loop (codeplagiarism.py lines
198-263): the pending `user_reports` batch, the automatic flushes already
performed, the students whose report file was written to disk (the
checkpoints created by this run), and the number of comparator calls. -/
structure LoopState where
  userReports : List (String × String)
  autoFlushes : List (List (String × String))
  written : List String
  compares : Nat
  deriving DecidableEq

/-- One iteration of the student loop (codeplagiarism.py lines 200-263):
skip when the checkpoint report already exists; otherwise compute the
student's `result_dict`, write the report and record its path when
non-empty (an empty string otherwise), and flush the batch when its
size reaches `update_frequency`. -/
def runStep (env : DetectorEnv) (refs : List String) (ckpt : String → Bool)
    (f : Nat) (st : LoopState) (p : String × List String) : LoopState :=
  if ckpt p.1 then st
  else
    let rd := processStudent env refs p.2
    let st1 : LoopState :=
      { userReports := st.userReports ++ [(p.1, if rd = [] then "" else reportLocation p.1)]
        autoFlushes := st.autoFlushes
        written := if rd = [] then st.written else st.written ++ [p.1]
        compares := st.compares + studentComparisons env refs p.2 }
    if st1.userReports.length = f then
      { st1 with autoFlushes := st1.autoFlushes ++ [st1.userReports], userReports := [] }
    else st1

/-- Observable outcome of `run`: the loop state plus the final forced
flush of the remaining batch (codeplagiarism.py lines 265-268). -/
structure RunOut where
  state : LoopState
  finalFlush : Option (List (String × String))
  deriving DecidableEq

/-- The whole student loop of `run`, followed by the final flush of any
non-empty remainder. -/
def runLoop (env : DetectorEnv) (refs : List String) (ckpt : String → Bool)
    (f : Nat) (students : List (String × List String)) : RunOut :=
  let st := students.foldl (runStep env refs ckpt f) ⟨[], [], [], 0⟩
  ⟨st, if st.userReports = [] then none else some st.userReports⟩

/-! ### The loop with a comparator that can raise

`run` installs no handler: a comparator exception propagates to the
caller immediately, so the effects performed before the raise survive
and everything after it — the final flush included — is skipped. -/

/-- Reference loop with a fallible comparator; the first raise aborts
the whole scan. -/
def innerLoopE (env : DetectorEnvE) (t : String) :
    List String → List Entry × Finset Int → Except String (List Entry × Finset Int)
  | [], acc => .ok acc
  | r :: rs, acc =>
    if shouldSkip env t r then innerLoopE env t rs acc
    else
      match env.compare t r with
      | .error e => .error e
      | .ok pr =>
        if qualifies env.displayT pr.testSimilarity pr.refSimilarity then
          innerLoopE env t rs (acc.1 ++ [mkEntry r pr], acc.2 ∪ pr.overlapHashes)
        else innerLoopE env t rs acc

/-- `processTestFile` with a fallible comparator. -/
def processTestFileE (env : DetectorEnvE) (t : String) (refs : List String) :
    Except String (Option FileVerdict) :=
  match innerLoopE env t refs ([], ∅) with
  | .error e => .error e
  | .ok rc =>
    .ok (if rc.2.card ≠ 0 ∧ rc.1 ≠ [] then
      match env.fileData t with
      | some fi => some ⟨(rc.2.card : ℚ) / (fi.hashes.length : ℚ), rc.1⟩
      | none => none
    else none)

/-- `processStudent` with a fallible comparator. -/
def processStudentE (env : DetectorEnvE) (refs : List String) :
    List String → List (String × FileVerdict) →
    Except String (List (String × FileVerdict))
  | [], rd => .ok rd
  | t :: ts, rd =>
    match processTestFileE env t refs with
    | .error e => .error e
    | .ok none => processStudentE env refs ts rd
    | .ok (some v) => processStudentE env refs ts (rd ++ [(t, v)])

/-- Loop state for the fallible runs (comparator counting omitted). -/
structure StateE where
  userReports : List (String × String)
  autoFlushes : List (List (String × String))
  written : List String
  deriving DecidableEq

/-- Observable outcome of a fallible run: state at exit, the final
flush (performed only on normal loop exit), and the loop's outcome. -/
structure RunOutE where
  state : StateE
  finalFlush : Option (List (String × String))
  outcome : Except String Unit

/-- The student loop with a fallible comparator.  An exception leaves
the loop immediately with the effects performed so far; only a normal
exit reaches the final forced flush on line 266. -/
def runLoopEAux (env : DetectorEnvE) (refs : List String)
    (ckpt : String → Bool) (f : Nat) :
    List (String × List String) → StateE → RunOutE
  | [], st => ⟨st, if st.userReports = [] then none else some st.userReports, .ok ()⟩
  | p :: ps, st =>
    if ckpt p.1 then runLoopEAux env refs ckpt f ps st
    else
      match processStudentE env refs p.2 [] with
      | .error e => ⟨st, none, .error e⟩
      | .ok rd =>
        let st1 : StateE :=
          { userReports := st.userReports ++ [(p.1, if rd = [] then "" else reportLocation p.1)]
            autoFlushes := st.autoFlushes
            written := if rd = [] then st.written else st.written ++ [p.1] }
        let st2 :=
          if st1.userReports.length = f then
            { st1 with autoFlushes := st1.autoFlushes ++ [st1.userReports], userReports := [] }
          else st1
        runLoopEAux env refs ckpt f ps st2

/-- Fallible run starting from the empty loop state. -/
def runLoopE (env : DetectorEnvE) (refs : List String) (ckpt : String → Bool)
    (f : Nat) (students : List (String × List String)) : RunOutE :=
  runLoopEAux env refs ckpt f students ⟨[], [], []⟩

/-! ### Grouping test files by student

`run` derives the student of each test file with
`re.search(r'users/(\d+)/', test_file).group(1)` (codeplagiarism.py
line 181); when the pattern does not match, `re.search` returns `None`
and the attribute access raises, aborting the scan. -/

/-- Splits a leading run of decimal digits off a character list. -/
def digitRun : List Char → List Char × List Char
  | [] => ([], [])
  | c :: cs =>
    if c.isDigit then
      let (d, rest) := digitRun cs
      (c :: d, rest)
    else ([], c :: cs)

/-- Tries to match `users/(\d+)/` at the head of the character list. -/
def matchUsersAt : List Char → Option String
  | 'u' :: 's' :: 'e' :: 'r' :: 's' :: '/' :: rest =>
    match digitRun rest with
    | ([], _) => none
    | (d, '/' :: _) => some (String.mk d)
    | (_, _) => none
  | _ => none

/-- Leftmost match of `users/(\d+)/`, as `re.search` performs it. -/
def searchUsersId : List Char → Option String
  | [] => none
  | c :: cs =>
    match matchUsersAt (c :: cs) with
    | some s => some s
    | none => searchUsersId cs

/-- The student id extracted from a submission path, when the path
matches the expected `users/<digits>/` layout. -/
def parseStudentId (path : String) : Option String :=
  searchUsersId path.data

/-- Appends a file to a student's list in the insertion-ordered
grouping dictionary, adding the student at the end when new. -/
def assocAppend (d : List (String × List String)) (k v : String) :
    List (String × List String) :=
  match d with
  | [] => [(k, [v])]
  | (k', vs) :: rest =>
    if k' = k then (k', vs ++ [v]) :: rest else (k', vs) :: assocAppend rest k v

/-- The grouping loop of codeplagiarism.py lines 179-182.  A path with
no `users/(\d+)/` match makes `.group(1)` raise on `None`, modelled as
an `Except.error` that aborts the whole grouping. -/
def groupByStudent : List String → List (String × List String) →
    Except Unit (List (String × List String))
  | [], d => .ok d
  | p :: ps, d =>
    match parseStudentId p with
    | none => .error ()
    | some sid => groupByStudent ps (assocAppend d sid p)

/-- Grouping of the full test-file list, from the empty dictionary. -/
def groupStudents (files : List String) :
    Except Unit (List (String × List String)) :=
  groupByStudent files []

/-! ### The users_to_scan filter (codeplagiarism.py lines 184-192) -/

/-- Decimal value of a digit string. -/
def digitsToNat (cs : List Char) : Nat :=
  cs.foldl (fun n c => 10 * n + (c.toNat - '0'.toNat)) 0

/-- Python's `int(student)` on the digit strings produced by the
grouping regex (always non-negative digit runs). -/
def studentInt (s : String) : Int :=
  (digitsToNat s.data : Int)

/-- Dictionary assignment `final[student] = files`: replace the value
when the key exists, append the key otherwise. -/
def assocSet (d : List (String × List String)) (k : String)
    (v : List String) : List (String × List String) :=
  match d with
  | [] => [(k, v)]
  | (k', v') :: rest =>
    if k' = k then (k, v) :: rest else (k', v') :: assocSet rest k v

/-- The user filter of codeplagiarism.py lines 184-192: start from the
full dictionary when `users_to_scan` is `None` or the empty list and
from the empty dictionary otherwise, then add every student whose id
parses to a member of the list. -/
def finalStudentDict (users : Option (List Int))
    (d : List (String × List String)) : List (String × List String) :=
  let init := if users = none ∨ users = some [] then d else []
  d.foldl (fun acc p =>
    match users with
    | none => acc
    | some us => if studentInt p.1 ∈ us then assocSet acc p.1 p.2 else acc) init

/-! ### The HTTP handler (src/app.py lines 45-65)

`plagiarism_checker` wraps `initialize` and `run` in one `try`:
any exception is answered with a 400 response; the only status-sink
messages ever produced are the `DOWNLOADED` transition
(codeplagiarism.py line 147) and the batched report updates sent by
`upload_reports` (codeplagiarism.py lines 292-297). -/

/-- A message sent to the external status sink by `make_request`. -/
inductive Msg where
  | statusOf (s : String)
  | reports (rs : List (String × String))
  deriving DecidableEq

/-- Messages and outcome of `initialize` (codeplagiarism.py lines
114-168): the bucket emptiness checks raise before any status update;
the `DOWNLOADED` update is sent before the detector's own emptiness
checks, which can still raise afterwards. -/
def initMsgs (subsFound bplFound : Bool) (nTest nRef : Nat) :
    List Msg × Except String Unit :=
  if subsFound = false then ([], .error "No files found in the bucket with prefix: s")
  else if bplFound = false then ([], .error "No files found in the bucket with prefix: b")
  else if nTest = 0 then ([Msg.statusOf "DOWNLOADED"], .error "No files found in Test directories.")
  else if nRef = 0 then ([Msg.statusOf "DOWNLOADED"], .error "No files found in Reference directories.")
  else ([Msg.statusOf "DOWNLOADED"], .ok ())

/-- The report-update messages produced by the flushes of one run. -/
def flushMsgs (out : RunOutE) : List Msg :=
  out.state.autoFlushes.map Msg.reports ++
    (match out.finalFlush with
     | some b => [Msg.reports b]
     | none => [])

/-- The `plagiarism_checker` endpoint of src/app.py: run `initialize`
then `run`; any exception yields a 400 response (and `clean_up`, a
no-op); success yields 200.  The returned list collects every message
sent to the external status sink, in order. -/
def plagiarismChecker (subsFound bplFound : Bool) (nTest nRef : Nat)
    (env : DetectorEnvE) (refs : List String) (ckpt : String → Bool)
    (f : Nat) (students : List (String × List String)) : List Msg × Nat :=
  let im := initMsgs subsFound bplFound nTest nRef
  match im.2 with
  | .error _ => (im.1, 400)
  | .ok _ =>
    let out := runLoopE env refs ckpt f students
    match out.outcome with
    | .error _ => (im.1 ++ flushMsgs out, 400)
    | .ok _ => (im.1 ++ flushMsgs out, 200)

/-! ### Concrete instances used by the witnesses and counterexamples -/

/-- A comparison with no overlap and zero similarities. -/
def prZero : PairResult := ⟨∅, 0, 0, 0, [], []⟩

/-- A qualifying comparison via the test-side similarity. -/
def prA : PairResult := ⟨{10, 20}, 3, 1, 0, [(0, 3)], [(1, 4)]⟩

/-- A qualifying comparison via the reference-side similarity, whose
overlap hashes intersect those of `prA`. -/
def prB : PairResult := ⟨{20, 30}, 4, 0, 1, [], []⟩

/-- A small detector environment: one fingerprinted test file `t1` and
two references `r1`, `r2` that both qualify against it. -/
def envA : DetectorEnv :=
  { fileData := fun s => if s = "t1" ∨ s = "r1" ∨ s = "r2" then some ⟨[10]⟩ else none
    fmeta := fun s => ⟨"Main.java", s, ".java"⟩
    compare := fun _ r => if r = "r1" then prA else if r = "r2" then prB else prZero
    sameNameOnly := true
    ignoreLeaf := true
    displayT := 0 }

/-- Like `envA` but every comparison comes back non-qualifying, so every
verdict is empty even though comparisons do run. -/
def envC : DetectorEnv :=
  { envA with compare := fun _ _ => prZero }

/-- A fallible environment: comparisons on test file `t2` raise. -/
def envE : DetectorEnvE :=
  { fileData := fun s => if s = "t1" ∨ s = "t2" ∨ s = "r1" then some ⟨[10]⟩ else none
    fmeta := fun s => ⟨"Main.java", s, ".java"⟩
    compare := fun t _ => if t = "t2" then .error "boom" else .ok prZero
    sameNameOnly := true
    ignoreLeaf := true
    displayT := 0 }

/-! ### C2: strict display-threshold qualification -/

/-- C2: for a compared pair (one passing the skip filter), the result is
appended to the evidence list and its overlap hashes unioned into the
accumulator exactly when `testSimilarity > displayThreshold` or
`refSimilarity > displayThreshold`; the comparison is strict, so a pair
with both similarities equal to the threshold is excluded, while a test
similarity of threshold plus any positive epsilon is included. -/
theorem strict_threshold_qualification :
    ∀ (env : DetectorEnv) (t r : String) (acc : List Entry × Finset Int),
      shouldSkip env t r = false →
      ((qualifies env.displayT (env.compare t r).testSimilarity
          (env.compare t r).refSimilarity = true →
        innerStep env t acc r =
          (acc.1 ++ [mkEntry r (env.compare t r)],
            acc.2 ∪ (env.compare t r).overlapHashes)) ∧
      (qualifies env.displayT (env.compare t r).testSimilarity
          (env.compare t r).refSimilarity = false →
        innerStep env t acc r = acc) ∧
      (∀ d : ℚ, qualifies d d d = false) ∧
      (∀ d ε s2 : ℚ, 0 < ε → qualifies d (d + ε) s2 = true)) := by
  intro env t r acc hskip
  refine ⟨?_, ?_, ?_, ?_⟩
  · intro hq
    simp [innerStep, hskip, hq]
  · intro hq
    simp [innerStep, hskip, hq]
  · intro d
    simp [qualifies]
  · intro d ε s2 hε
    simp [qualifies]
    left
    linarith

/-- Witness for C2 on the concrete environment `envA`. -/
theorem strict_threshold_qualification_witness :
    shouldSkip envA "t1" "r1" = false ∧
    innerStep envA "t1" ([], ∅) "r1" =
      ([mkEntry "r1" (envA.compare "t1" "r1")],
        ∅ ∪ (envA.compare "t1" "r1").overlapHashes) :=
  ⟨by decide, (strict_threshold_qualification envA "t1" "r1" ([], ∅)
    (by decide)).1 (by decide)⟩

/-! ### C10: the users_to_scan filter -/

/-- Folding a function that never changes the accumulator is the
identity. -/
theorem foldl_keep {α β : Type} (l : List α) (acc : β) :
    l.foldl (fun a _ => a) acc = acc := by
  induction l generalizing acc with
  | nil => rfl
  | cons x xs ih => simp [ih acc]

/-- Assigning a key absent from an association list appends the pair. -/
theorem assocSet_of_not_mem (d : List (String × List String)) (k : String)
    (v : List String) (h : k ∉ d.map Prod.fst) :
    assocSet d k v = d ++ [(k, v)] := by
  induction d with
  | nil => rfl
  | cons p rest ih =>
    obtain ⟨k', v'⟩ := p
    simp only [List.map_cons, List.mem_cons] at h
    push_neg at h
    have hne : ¬ k' = k := fun h' => h.1 h'.symm
    simp [assocSet, hne, ih h.2]

/-- The member-adding loop of the user filter builds exactly the
membership filter of the grouping dictionary, provided the dictionary
keys are distinct and disjoint from the accumulator's keys. -/
theorem foldl_userFilter (us : List Int) :
    ∀ (d : List (String × List String)) (acc : List (String × List String)),
      (d.map Prod.fst).Nodup →
      (∀ k ∈ acc.map Prod.fst, k ∉ d.map Prod.fst) →
      d.foldl (fun acc p =>
        if studentInt p.1 ∈ us then assocSet acc p.1 p.2 else acc) acc =
        acc ++ d.filter (fun p => studentInt p.1 ∈ us) := by
  intro d
  induction d with
  | nil => simp
  | cons p rest ih =>
    intro acc hnd hdisj
    obtain ⟨hp, hrest⟩ := List.nodup_cons.mp hnd
    by_cases hm : studentInt p.1 ∈ us
    · have hpacc : p.1 ∉ acc.map Prod.fst := by
        intro hin
        exact hdisj p.1 hin (by simp)
      have hstep : assocSet acc p.1 p.2 = acc ++ [p] := by
        rw [assocSet_of_not_mem acc p.1 p.2 hpacc]
      have hdisj' : ∀ k ∈ (acc ++ [p]).map Prod.fst, k ∉ rest.map Prod.fst := by
        intro k hk
        simp only [List.map_append, List.mem_append, List.map_cons,
          List.mem_singleton, List.map_nil] at hk
        rcases hk with hk | hk
        · intro hkr
          exact hdisj k hk (by simp [hkr])
        · subst hk
          exact hp
      simp only [List.foldl_cons, if_pos hm, hstep]
      rw [ih (acc ++ [p]) hrest hdisj']
      simp [List.filter_cons, hm]
    · have hdisj' : ∀ k ∈ acc.map Prod.fst, k ∉ rest.map Prod.fst := by
        intro k hk hkr
        exact hdisj k hk (by simp [hkr])
      simp only [List.foldl_cons, if_neg hm]
      rw [ih acc hrest hdisj']
      simp [List.filter_cons, hm]

/-- C10: with `users_to_scan` equal to `None` or the empty list the user
filter is the identity on the grouped submission dictionary; with a
non-empty list exactly the students whose id parses to a member of the
list are kept, in order, and all others are dropped. -/
theorem users_to_scan_filter :
    ∀ (users : Option (List Int)) (d : List (String × List String)),
      (d.map Prod.fst).Nodup →
      (((users = none ∨ users = some []) → finalStudentDict users d = d) ∧
        (∀ us, users = some us → us ≠ [] →
          finalStudentDict users d =
            d.filter (fun p => studentInt p.1 ∈ us))) := by
  intro users d hnd
  constructor
  · intro h
    rcases h with h | h
    · subst h
      simp only [finalStudentDict, if_pos (Or.inl rfl)]
      exact foldl_keep d d
    · subst h
      simp only [finalStudentDict, if_pos (Or.inr rfl)]
      have : ∀ (l : List (String × List String)) (acc : List (String × List String)),
          l.foldl (fun acc p =>
            if studentInt p.1 ∈ ([] : List Int) then assocSet acc p.1 p.2 else acc) acc = acc := by
        intro l
        induction l with
        | nil => intro acc; rfl
        | cons q qs ih =>
          intro acc
          rw [List.foldl_cons, if_neg (List.not_mem_nil _)]
          exact ih acc
      exact this d d
  · intro us hus hne
    subst hus
    have hinit : (some us = none ∨ some us = some ([] : List Int)) = False := by
      simp [hne]
    simp only [finalStudentDict, hinit, if_false]
    have := foldl_userFilter us d [] hnd (by simp)
    simpa using this

/-- Witness for C10 on a concrete two-student dictionary. -/
theorem users_to_scan_filter_witness :
    ((([("1", ["a"]), ("2", ["b"])] : List (String × List String)).map Prod.fst).Nodup) ∧
    finalStudentDict none [("1", ["a"]), ("2", ["b"])] = [("1", ["a"]), ("2", ["b"])] ∧
    finalStudentDict (some [2]) [("1", ["a"]), ("2", ["b"])] =
      ([("1", ["a"]), ("2", ["b"])] : List (String × List String)).filter
        (fun p => studentInt p.1 ∈ [(2 : Int)]) :=
  ⟨by decide,
    (users_to_scan_filter none [("1", ["a"]), ("2", ["b"])] (by decide)).1 (Or.inl rfl),
    (users_to_scan_filter (some [2]) [("1", ["a"]), ("2", ["b"])] (by decide)).2
      [2] rfl (by decide)⟩

/-! ### C8: malformed submission paths abort the scan -/

/-- C8 (amended): a submission path with no parseable `users/<digits>/`
segment makes the grouping stage raise (the `.group(1)` call on `None`),
aborting the whole scan rather than skipping the single file. -/
theorem malformed_path_aborts_grouping :
    ∀ (files : List String) (p : String),
      p ∈ files → parseStudentId p = none →
      ∀ d, groupByStudent files d = Except.error () := by
  intro files
  induction files with
  | nil => intro p hp; exact absurd hp (List.not_mem_nil p)
  | cons q qs ih =>
    intro p hp hnone d
    rcases List.mem_cons.mp hp with hq | hqs
    · subst hq
      simp [groupByStudent, hnone]
    · cases hq : parseStudentId q with
      | none => simp [groupByStudent, hq]
      | some sid =>
        simp only [groupByStudent, hq]
        exact ih p hqs hnone (assocAppend d sid q)

/-- Witness for C8 (amended) on a concrete file list. -/
theorem malformed_path_aborts_grouping_witness :
    "boilerplate/Main.java" ∈ ["users/7/attempts/1/Main.java", "boilerplate/Main.java"] ∧
    parseStudentId "boilerplate/Main.java" = none ∧
    groupByStudent ["users/7/attempts/1/Main.java", "boilerplate/Main.java"] [] =
      Except.error () :=
  ⟨by decide, by decide,
    malformed_path_aborts_grouping
      ["users/7/attempts/1/Main.java", "boilerplate/Main.java"]
      "boilerplate/Main.java" (by decide) (by decide) []⟩

/-- Counterexample to C8 as stated: adding one malformed path to an
otherwise well-formed submission set turns the whole grouping into an
error, instead of skipping that file and continuing with the rest. -/
theorem malformed_path_aborts_grouping_cex :
    groupStudents ["users/7/attempts/1/Main.java", "boilerplate/Main.java"] =
      Except.error () ∧
    groupStudents ["users/7/attempts/1/Main.java"] =
      Except.ok [("7", ["users/7/attempts/1/Main.java"])] := by
  constructor
  · rfl
  · rfl

/-! ### C4: checkpointed students are skipped entirely -/

/-- C4: a student whose per-student report already exists is skipped
without any effect — no comparator call, no report write, no batch
entry — and a run in which every student is checkpointed produces zero
comparator invocations, no writes, and no flushes. -/
theorem checkpointed_student_skipped :
    ∀ (env : DetectorEnv) (refs : List String) (ckpt : String → Bool) (f : Nat),
      (∀ (st : LoopState) (p : String × List String),
        ckpt p.1 = true → runStep env refs ckpt f st p = st) ∧
      (∀ students, (∀ p ∈ students, ckpt p.1 = true) →
        runLoop env refs ckpt f students = ⟨⟨[], [], [], 0⟩, none⟩) := by
  intro env refs ckpt f
  have hstep : ∀ (st : LoopState) (p : String × List String),
      ckpt p.1 = true → runStep env refs ckpt f st p = st := by
    intro st p h
    simp [runStep, h]
  refine ⟨hstep, ?_⟩
  have hfold : ∀ (students : List (String × List String)) (st : LoopState),
      (∀ p ∈ students, ckpt p.1 = true) →
      students.foldl (runStep env refs ckpt f) st = st := by
    intro students
    induction students with
    | nil => intro st _; rfl
    | cons p ps ih =>
      intro st h
      rw [List.foldl_cons, hstep st p (h p (by simp))]
      exact ih st (fun q hq => h q (by simp [hq]))
  intro students h
  simp [runLoop, hfold students _ h]

/-- Witness for C4: a fully checkpointed run touches nothing. -/
theorem checkpointed_student_skipped_witness :
    runStep envA ["r1"] (fun _ => true) 5 ⟨[("0", "z")], [], [], 3⟩ ("1", ["t1"]) =
      ⟨[("0", "z")], [], [], 3⟩ ∧
    runLoop envA ["r1"] (fun _ => true) 5 [("1", ["t1"]), ("2", ["t1"])] =
      ⟨⟨[], [], [], 0⟩, none⟩ :=
  ⟨(checkpointed_student_skipped envA ["r1"] (fun _ => true) 5).1
      ⟨[("0", "z")], [], [], 3⟩ ("1", ["t1"]) rfl,
    (checkpointed_student_skipped envA ["r1"] (fun _ => true) 5).2
      [("1", ["t1"]), ("2", ["t1"])] (by simp)⟩

/-! ### C5: empty verdicts are batched but never checkpointed -/

/-- C5 (amended): a non-checkpointed student whose verdict comes out
empty is recorded in the pending batch with the empty-string location,
but no report file is written — so no checkpoint is created and a later
run re-runs that student's comparisons in full. -/
theorem empty_verdict_batched_not_checkpointed :
    ∀ (env : DetectorEnv) (refs : List String) (ckpt : String → Bool)
      (f : Nat) (st : LoopState) (p : String × List String),
      ckpt p.1 = false → processStudent env refs p.2 = [] →
      ((runStep env refs ckpt f st p).written = st.written ∧
        (runStep env refs ckpt f st p).compares =
          st.compares + studentComparisons env refs p.2 ∧
        (((runStep env refs ckpt f st p).userReports =
            st.userReports ++ [(p.1, "")] ∧
          (runStep env refs ckpt f st p).autoFlushes = st.autoFlushes) ∨
         (st.userReports.length + 1 = f ∧
          (runStep env refs ckpt f st p).userReports = [] ∧
          (runStep env refs ckpt f st p).autoFlushes =
            st.autoFlushes ++ [st.userReports ++ [(p.1, "")]]))) := by
  intro env refs ckpt f st p hck hrd
  by_cases hlen : st.userReports.length + 1 = f
  · refine ⟨?_, ?_, Or.inr ⟨hlen, ?_, ?_⟩⟩ <;>
      simp [runStep, hck, hrd, hlen]
  · refine ⟨?_, ?_, Or.inl ⟨?_, ?_⟩⟩ <;>
      simp [runStep, hck, hrd, hlen]

/-- Witness for C5 (amended) on the all-clean environment `envC`. -/
theorem empty_verdict_batched_not_checkpointed_witness :
    processStudent envC ["r1"] ["t1"] = [] ∧
    (runStep envC ["r1"] (fun _ => false) 5 ⟨[], [], [], 0⟩ ("1", ["t1"])).written = [] ∧
    (runStep envC ["r1"] (fun _ => false) 5 ⟨[], [], [], 0⟩ ("1", ["t1"])).compares =
      0 + studentComparisons envC ["r1"] ["t1"] :=
  ⟨by decide,
    (empty_verdict_batched_not_checkpointed envC ["r1"] (fun _ => false) 5
      ⟨[], [], [], 0⟩ ("1", ["t1"]) rfl (by decide)).1,
    (empty_verdict_batched_not_checkpointed envC ["r1"] (fun _ => false) 5
      ⟨[], [], [], 0⟩ ("1", ["t1"]) rfl (by decide)).2.1⟩

/-- Counterexample to C5 as stated: in `envC` student `1` is processed
to completion with an empty verdict after one real comparator call, yet
the run writes no report — the checkpoint set stays empty — and a second
run with the unchanged checkpoint store performs the same comparator
call again instead of skipping the student. -/
theorem empty_verdict_not_checkpointed_cex :
    (runLoop envC ["r1"] (fun _ => false) 5 [("1", ["t1"])]).state.written = [] ∧
    (runLoop envC ["r1"] (fun _ => false) 5 [("1", ["t1"])]).state.userReports =
      [("1", "")] ∧
    (runLoop envC ["r1"] (fun _ => false) 5 [("1", ["t1"])]).state.compares = 1 := by
  refine ⟨by decide, by decide, by decide⟩

/-! ### C7: the final flush is skipped when the loop raises -/

/-- C7 (amended): when the per-student loop exits through an exception,
the final forced flush is not performed; only normal completion reaches
it, so pending batched reports are dropped on the error path. -/
theorem error_exit_skips_final_flush :
    ∀ (env : DetectorEnvE) (refs : List String) (ckpt : String → Bool)
      (f : Nat) (students : List (String × List String)),
      (runLoopE env refs ckpt f students).outcome.isOk = false →
      (runLoopE env refs ckpt f students).finalFlush = none := by
  intro env refs ckpt f students
  suffices h : ∀ (sts : List (String × List String)) (st : StateE),
      (runLoopEAux env refs ckpt f sts st).outcome.isOk = false →
      (runLoopEAux env refs ckpt f sts st).finalFlush = none by
    exact h students ⟨[], [], []⟩
  intro sts
  induction sts with
  | nil =>
    intro st h
    simp [runLoopEAux, Except.isOk, Except.toBool] at h
  | cons p ps ih =>
    intro st h
    by_cases hck : ckpt p.1
    · rw [runLoopEAux, if_pos hck] at h ⊢
      exact ih st h
    · rw [runLoopEAux, if_neg hck] at h ⊢
      cases hps : processStudentE env refs p.2 [] with
      | error e => simp [hps]
      | ok rd =>
        simp only [hps] at h ⊢
        exact ih _ h

/-- Witness for C7 (amended) on the raising environment `envE`. -/
theorem error_exit_skips_final_flush_witness :
    (runLoopE envE ["r1"] (fun _ => false) 5
      [("1", ["t1"]), ("2", ["t2"])]).outcome.isOk = false ∧
    (runLoopE envE ["r1"] (fun _ => false) 5
      [("1", ["t1"]), ("2", ["t2"])]).finalFlush = none :=
  ⟨by decide,
    error_exit_skips_final_flush envE ["r1"] (fun _ => false) 5
      [("1", ["t1"]), ("2", ["t2"])] (by decide)⟩

/-- Counterexample to C7 as stated: student `1` completes and sits in
the pending batch, student `2`'s comparison raises; the loop exits with
the error, no flush of any kind has happened, and the completed
student's pending report is dropped. -/
theorem final_flush_skipped_on_error_cex :
    (runLoopE envE ["r1"] (fun _ => false) 5
      [("1", ["t1"]), ("2", ["t2"])]).state.userReports = [("1", "")] ∧
    (runLoopE envE ["r1"] (fun _ => false) 5
      [("1", ["t1"]), ("2", ["t2"])]).state.autoFlushes = [] ∧
    (runLoopE envE ["r1"] (fun _ => false) 5
      [("1", ["t1"]), ("2", ["t2"])]).finalFlush = none ∧
    (runLoopE envE ["r1"] (fun _ => false) 5
      [("1", ["t1"]), ("2", ["t2"])]).outcome = Except.error "boom" :=
  ⟨by decide, by decide, by decide, rfl⟩

/-! ### C9: no FAILED status is ever pushed -/

/-- The only status message `initialize` can emit is `DOWNLOADED`. -/
theorem initMsgs_only_downloaded (sf bf : Bool) (nt nr : Nat) :
    ∀ m ∈ (initMsgs sf bf nt nr).1, m = Msg.statusOf "DOWNLOADED" := by
  intro m hm
  unfold initMsgs at hm
  split_ifs at hm <;> simp_all

/-- Every message produced by the run's flushes is a reports update. -/
theorem flushMsgs_only_reports (out : RunOutE) :
    ∀ m ∈ flushMsgs out, ∃ b, m = Msg.reports b := by
  intro m hm
  unfold flushMsgs at hm
  rcases List.mem_append.mp hm with h | h
  · obtain ⟨b, _, hb⟩ := List.mem_map.mp h
    exact ⟨b, hb.symm⟩
  · cases hout : out.finalFlush with
    | none => rw [hout] at h; cases h
    | some b =>
      rw [hout] at h
      simp only [List.mem_singleton] at h
      exact ⟨b, h⟩

/-- C9 (amended): an unhandled error after the `DOWNLOADED` transition
surfaces to the caller as the endpoint's 400 response, with no status
report pushed for it: the handler never sends a `FAILED` status to the
external status sink — on any input, the only status message it can
ever emit is `DOWNLOADED`. -/
theorem no_failed_status_pushed :
    ∀ (sf bf : Bool) (nt nr : Nat) (env : DetectorEnvE) (refs : List String)
      (ckpt : String → Bool) (f : Nat) (students : List (String × List String)),
      Msg.statusOf "FAILED" ∉
        (plagiarismChecker sf bf nt nr env refs ckpt f students).1 := by
  intro sf bf nt nr env refs ckpt f students hmem
  have hno : ∀ m ∈ (plagiarismChecker sf bf nt nr env refs ckpt f students).1,
      m = Msg.statusOf "DOWNLOADED" ∨ ∃ b, m = Msg.reports b := by
    intro m hm
    simp only [plagiarismChecker] at hm
    rcases him : (initMsgs sf bf nt nr).2 with e | u
    · rw [him] at hm
      dsimp only at hm
      exact Or.inl (initMsgs_only_downloaded sf bf nt nr m hm)
    · rw [him] at hm
      dsimp only at hm
      rcases hout : (runLoopE env refs ckpt f students).outcome with e | u
      · rw [hout] at hm
        dsimp only at hm
        rcases List.mem_append.mp hm with h | h
        · exact Or.inl (initMsgs_only_downloaded sf bf nt nr m h)
        · exact Or.inr (flushMsgs_only_reports _ m h)
      · rw [hout] at hm
        dsimp only at hm
        rcases List.mem_append.mp hm with h | h
        · exact Or.inl (initMsgs_only_downloaded sf bf nt nr m h)
        · exact Or.inr (flushMsgs_only_reports _ m h)
  rcases hno _ hmem with h | ⟨b, h⟩
  · simp at h
  · cases h

/-- Witness for C9 (amended) at a concrete erroring scan. -/
theorem no_failed_status_pushed_witness :
    Msg.statusOf "FAILED" ∉
      (plagiarismChecker true true 1 1 envE ["r1"] (fun _ => false) 5
        [("1", ["t1"]), ("2", ["t2"])]).1 :=
  no_failed_status_pushed true true 1 1 envE ["r1"] (fun _ => false) 5
    [("1", ["t1"]), ("2", ["t2"])]

/-- Counterexample to C9 as stated: the comparator raises after the
`DOWNLOADED` transition; the endpoint answers 400 and the full message
trace is just the `DOWNLOADED` status — no `FAILED` transition and no
error-detail report reaches the status sink before the error surfaces. -/
theorem no_failed_status_cex :
    plagiarismChecker true true 1 1 envE ["r1"] (fun _ => false) 5
      [("1", ["t1"]), ("2", ["t2"])] = ([Msg.statusOf "DOWNLOADED"], 400) := by
  rfl

/-! ### C3: verdict membership -/

/-- A test file with no fingerprint entry never passes the skip filter,
so its reference loop leaves the accumulator untouched. -/
theorem innerLoop_of_no_fileData (env : DetectorEnv) (t : String)
    (h : env.fileData t = none) :
    ∀ (refs : List String) (acc : List Entry × Finset Int),
      refs.foldl (innerStep env t) acc = acc := by
  intro refs
  induction refs with
  | nil => intro acc; rfl
  | cons r rs ih =>
    intro acc
    have hskip : shouldSkip env t r = true := by
      simp [shouldSkip, h]
    rw [List.foldl_cons]
    rw [show innerStep env t acc r = acc by simp [innerStep, hskip]]
    exact ih acc

/-- A test file is recorded exactly when its accumulated copied-hash
set and its evidence list are both non-empty. -/
theorem processTestFile_ne_none_iff (env : DetectorEnv) (t : String)
    (refs : List String) :
    (processTestFile env t refs ≠ none) ↔
      ((innerLoop env t refs).2.card ≠ 0 ∧ (innerLoop env t refs).1 ≠ []) := by
  constructor
  · intro h
    by_cases hcond : (innerLoop env t refs).2.card ≠ 0 ∧ (innerLoop env t refs).1 ≠ []
    · exact hcond
    · exfalso
      apply h
      unfold processTestFile
      rw [if_neg hcond]
  · intro hc
    cases hfd : env.fileData t with
    | none =>
      exfalso
      have : (innerLoop env t refs) = ([], ∅) :=
        innerLoop_of_no_fileData env t hfd refs ([], ∅)
      rw [this] at hc
      simp at hc
    | some fi =>
      simp [processTestFile, hc, hfd]

/-- A pair recorded in `result_dict` carries exactly the verdict that
`processTestFile` computes for its key. -/
theorem mem_processStudentAux_some (env : DetectorEnv) (refs : List String) :
    ∀ (files : List String) (rd : List (String × FileVerdict))
      (t : String) (v : FileVerdict),
      (t, v) ∈ processStudentAux env refs files rd →
      (t, v) ∈ rd ∨ processTestFile env t refs = some v := by
  intro files
  induction files with
  | nil =>
    intro rd t v h
    exact Or.inl h
  | cons q qs ih =>
    intro rd t v h
    cases hq : processTestFile env q refs with
    | none =>
      rw [processStudentAux, hq] at h
      exact ih rd t v h
    | some w =>
      rw [processStudentAux, hq] at h
      rcases ih _ t v h with h' | h'
      · rcases List.mem_append.mp h' with h'' | h''
        · exact Or.inl h''
        · simp only [List.mem_singleton, Prod.mk.injEq] at h''
          obtain ⟨ht, hv⟩ := h''
          subst ht
          subst hv
          exact Or.inr hq
      · exact Or.inr h'

/-- Key membership in the accumulated `result_dict`. -/
theorem mem_keys_processStudentAux (env : DetectorEnv) (refs : List String) :
    ∀ (files : List String) (rd : List (String × FileVerdict)) (t : String),
      (t ∈ (processStudentAux env refs files rd).map Prod.fst ↔
        t ∈ rd.map Prod.fst ∨ (t ∈ files ∧ processTestFile env t refs ≠ none)) := by
  intro files
  induction files with
  | nil =>
    intro rd t
    simp [processStudentAux]
  | cons q qs ih =>
    intro rd t
    cases hq : processTestFile env q refs with
    | none =>
      rw [processStudentAux, hq]
      rw [ih rd t]
      constructor
      · rintro (h | ⟨h1, h2⟩)
        · exact Or.inl h
        · exact Or.inr ⟨List.mem_cons_of_mem q h1, h2⟩
      · rintro (h | ⟨h1, h2⟩)
        · exact Or.inl h
        · rcases List.mem_cons.mp h1 with h1 | h1
          · subst h1
            exact absurd hq h2
          · exact Or.inr ⟨h1, h2⟩
    | some v =>
      rw [processStudentAux, hq]
      rw [ih (rd ++ [(q, v)]) t]
      simp only [List.map_append, List.mem_append, List.map_cons, List.map_nil,
        List.mem_singleton]
      constructor
      · rintro ((h | h) | ⟨h1, h2⟩)
        · exact Or.inl h
        · subst h
          exact Or.inr ⟨by simp, by simp [hq]⟩
        · exact Or.inr ⟨List.mem_cons_of_mem q h1, h2⟩
      · rintro (h | ⟨h1, h2⟩)
        · exact Or.inl (Or.inl h)
        · rcases List.mem_cons.mp h1 with h1 | h1
          · subst h1
            exact Or.inl (Or.inr (by simp))
          · exact Or.inr ⟨h1, h2⟩

/-- C3: a test file appears as a key of the student's `result_dict`
exactly when, after all references are processed, its accumulated
copied-hash set is non-empty and its evidence list is non-empty; a file
with no qualifying evidence is simply absent, and a recorded file with
a positive total hash count never carries score 0. -/
theorem verdict_membership :
    ∀ (env : DetectorEnv) (refs files : List String) (t : String),
      t ∈ files →
      ((t ∈ (processStudent env refs files).map Prod.fst ↔
        ((innerLoop env t refs).2.card ≠ 0 ∧ (innerLoop env t refs).1 ≠ [])) ∧
       (∀ (v : FileVerdict) (fi : FileInfo),
         (t, v) ∈ processStudent env refs files →
         env.fileData t = some fi →
         0 < fi.hashes.length →
         0 < v.score)) := by
  intro env refs files t ht
  constructor
  · rw [processStudent, mem_keys_processStudentAux env refs files [] t]
    simp only [List.map_nil, List.not_mem_nil, false_or]
    rw [← processTestFile_ne_none_iff env t refs]
    simp [ht]
  · intro v fi hmem hfd hlen
    have hsome : processTestFile env t refs = some v := by
      rcases mem_processStudentAux_some env refs files [] t v hmem with h | h
      · exact absurd h (List.not_mem_nil _)
      · exact h
    have hcond : (innerLoop env t refs).2.card ≠ 0 ∧
        (innerLoop env t refs).1 ≠ [] := by
      apply (processTestFile_ne_none_iff env t refs).mp
      rw [hsome]
      simp
    have hv : v = ⟨((innerLoop env t refs).2.card : ℚ) / (fi.hashes.length : ℚ),
        (innerLoop env t refs).1⟩ := by
      unfold processTestFile at hsome
      rw [if_pos hcond, hfd] at hsome
      exact (Option.some_inj.mp hsome).symm
    rw [hv]
    apply div_pos
    · exact_mod_cast Nat.pos_of_ne_zero hcond.1
    · exact_mod_cast hlen

/-- Witness for C3 on `envA`, where `t1` is flagged, and on `envC`,
where it is not. -/
theorem verdict_membership_witness :
    ("t1" ∈ (["t1"] : List String)) ∧
    ("t1" ∈ (processStudent envA ["r1", "r2"] ["t1"]).map Prod.fst ↔
      ((innerLoop envA "t1" ["r1", "r2"]).2.card ≠ 0 ∧
        (innerLoop envA "t1" ["r1", "r2"]).1 ≠ [])) ∧
    ("t1" ∈ (processStudent envC ["r1"] ["t1"]).map Prod.fst ↔
      ((innerLoop envC "t1" ["r1"]).2.card ≠ 0 ∧
        (innerLoop envC "t1" ["r1"]).1 ≠ [])) :=
  ⟨by decide,
    (verdict_membership envA ["r1", "r2"] ["t1"] "t1" (by decide)).1,
    (verdict_membership envC ["r1"] ["t1"] "t1" (by decide)).1⟩

/-! ### C1: the score is the union of qualifying overlaps over the
total hash count, independent of reference order -/

/-- The evidence list built by the reference loop is the qualifying
references in iteration order, one entry each. -/
theorem innerLoop_fst_eq (env : DetectorEnv) (t : String) :
    ∀ (refs : List String) (acc : List Entry × Finset Int),
      (refs.foldl (innerStep env t) acc).1 =
        acc.1 ++ (qualifyingRefs env t refs).map
          (fun r => mkEntry r (env.compare t r)) := by
  intro refs
  induction refs with
  | nil => intro acc; simp [qualifyingRefs]
  | cons r rs ih =>
    intro acc
    rw [List.foldl_cons]
    by_cases hsk : shouldSkip env t r = true
    · have hqf : qualifiesFor env t r = false := by
        simp [qualifiesFor, hsk]
      rw [show innerStep env t acc r = acc by simp [innerStep, hsk]]
      rw [ih acc]
      simp [qualifyingRefs, List.filter_cons, hqf]
    · replace hsk : shouldSkip env t r = false := by
        simpa using hsk
      by_cases hq : qualifies env.displayT (env.compare t r).testSimilarity
          (env.compare t r).refSimilarity = true
      · have hqf : qualifiesFor env t r = true := by
          simp [qualifiesFor, hsk, hq]
        rw [show innerStep env t acc r =
            (acc.1 ++ [mkEntry r (env.compare t r)],
              acc.2 ∪ (env.compare t r).overlapHashes) by
          simp [innerStep, hsk, hq]]
        rw [ih _]
        simp [qualifyingRefs, List.filter_cons, hqf]
      · replace hq : qualifies env.displayT (env.compare t r).testSimilarity
            (env.compare t r).refSimilarity = false := by
          simpa using hq
        have hqf : qualifiesFor env t r = false := by
          simp [qualifiesFor, hsk, hq]
        rw [show innerStep env t acc r = acc by simp [innerStep, hsk, hq]]
        rw [ih acc]
        simp [qualifyingRefs, List.filter_cons, hqf]

/-- The copied-hash accumulator built by the reference loop is the fold
of unions over the qualifying references. -/
theorem innerLoop_snd_eq (env : DetectorEnv) (t : String) :
    ∀ (refs : List String) (acc : List Entry × Finset Int),
      (refs.foldl (innerStep env t) acc).2 =
        (qualifyingRefs env t refs).foldl
          (fun c r => c ∪ (env.compare t r).overlapHashes) acc.2 := by
  intro refs
  induction refs with
  | nil => intro acc; simp [qualifyingRefs]
  | cons r rs ih =>
    intro acc
    rw [List.foldl_cons]
    by_cases hsk : shouldSkip env t r = true
    · have hqf : qualifiesFor env t r = false := by
        simp [qualifiesFor, hsk]
      rw [show innerStep env t acc r = acc by simp [innerStep, hsk]]
      rw [ih acc]
      simp [qualifyingRefs, List.filter_cons, hqf]
    · replace hsk : shouldSkip env t r = false := by
        simpa using hsk
      by_cases hq : qualifies env.displayT (env.compare t r).testSimilarity
          (env.compare t r).refSimilarity = true
      · have hqf : qualifiesFor env t r = true := by
          simp [qualifiesFor, hsk, hq]
        rw [show innerStep env t acc r =
            (acc.1 ++ [mkEntry r (env.compare t r)],
              acc.2 ∪ (env.compare t r).overlapHashes) by
          simp [innerStep, hsk, hq]]
        rw [ih _]
        simp [qualifyingRefs, List.filter_cons, hqf]
      · replace hq : qualifies env.displayT (env.compare t r).testSimilarity
            (env.compare t r).refSimilarity = false := by
          simpa using hq
        have hqf : qualifiesFor env t r = false := by
          simp [qualifiesFor, hsk, hq]
        rw [show innerStep env t acc r = acc by simp [innerStep, hsk, hq]]
        rw [ih acc]
        simp [qualifyingRefs, List.filter_cons, hqf]

/-- Folding unions of overlap sets is invariant under permutation of
the reference list. -/
theorem foldl_union_perm (env : DetectorEnv) (t : String)
    {l₁ l₂ : List String} (h : l₁.Perm l₂) :
    ∀ acc : Finset Int,
      l₁.foldl (fun c r => c ∪ (env.compare t r).overlapHashes) acc =
        l₂.foldl (fun c r => c ∪ (env.compare t r).overlapHashes) acc := by
  induction h with
  | nil => intro acc; rfl
  | cons x h12 ih =>
    intro acc
    rw [List.foldl_cons, List.foldl_cons]
    exact ih _
  | swap x y l =>
    intro acc
    rw [List.foldl_cons, List.foldl_cons, List.foldl_cons, List.foldl_cons]
    rw [Finset.union_right_comm]
  | trans h1 h2 ih1 ih2 =>
    intro acc
    rw [ih1, ih2]

/-- C1: the score recorded for a test file equals the cardinality of
the union of the overlap-hash sets of all qualifying pairwise results
for that file, divided by the file's total fingerprint hash count; and
re-running the aggregation with the references in any other order
yields a verdict with the same score. -/
theorem score_union_of_overlaps :
    ∀ (env : DetectorEnv) (refs files : List String) (t : String)
      (v : FileVerdict) (fi : FileInfo),
      (t, v) ∈ processStudent env refs files →
      env.fileData t = some fi →
      (v.score = ((overlapUnion env t (qualifyingRefs env t refs)).card : ℚ) /
          (fi.hashes.length : ℚ) ∧
        ∀ refs', refs.Perm refs' →
          ∃ v', processTestFile env t refs' = some v' ∧ v'.score = v.score) := by
  intro env refs files t v fi hmem hfd
  have hsome : processTestFile env t refs = some v := by
    rcases mem_processStudentAux_some env refs files [] t v hmem with h | h
    · exact absurd h (List.not_mem_nil _)
    · exact h
  have hcond : (innerLoop env t refs).2.card ≠ 0 ∧ (innerLoop env t refs).1 ≠ [] := by
    apply (processTestFile_ne_none_iff env t refs).mp
    rw [hsome]
    simp
  have hv : v = ⟨((innerLoop env t refs).2.card : ℚ) / (fi.hashes.length : ℚ),
      (innerLoop env t refs).1⟩ := by
    unfold processTestFile at hsome
    rw [if_pos hcond, hfd] at hsome
    exact (Option.some_inj.mp hsome).symm
  have hsnd : (innerLoop env t refs).2 =
      overlapUnion env t (qualifyingRefs env t refs) := by
    rw [innerLoop, innerLoop_snd_eq env t refs ([], ∅)]
    rfl
  refine ⟨by rw [hv, hsnd], ?_⟩
  intro refs' hperm
  have hqperm : (qualifyingRefs env t refs).Perm (qualifyingRefs env t refs') :=
    hperm.filter _
  have hsnd' : (innerLoop env t refs').2 = (innerLoop env t refs).2 := by
    rw [innerLoop, innerLoop_snd_eq env t refs' ([], ∅),
      innerLoop, innerLoop_snd_eq env t refs ([], ∅)]
    exact (foldl_union_perm env t hqperm ∅).symm
  have hfst' : (innerLoop env t refs').1.length = (innerLoop env t refs).1.length := by
    rw [innerLoop, innerLoop_fst_eq env t refs' ([], ∅),
      innerLoop, innerLoop_fst_eq env t refs ([], ∅)]
    simp [hqperm.length_eq]
  have hcond' : (innerLoop env t refs').2.card ≠ 0 ∧ (innerLoop env t refs').1 ≠ [] := by
    constructor
    · rw [hsnd']
      exact hcond.1
    · intro hnil
      apply hcond.2
      have := hfst'
      rw [hnil] at this
      simpa [List.length_eq_zero] using this.symm
  refine ⟨⟨((innerLoop env t refs').2.card : ℚ) / (fi.hashes.length : ℚ),
      (innerLoop env t refs').1⟩, ?_, ?_⟩
  · unfold processTestFile
    rw [if_pos hcond', hfd]
  · rw [hv, hsnd']

/-- The verdict computed for `t1` in `envA`. -/
def vA : FileVerdict :=
  (processTestFile envA "t1" ["r1", "r2"]).getD ⟨0, []⟩

/-- Witness for C1 on `envA`: two qualifying references with hash
overlaps of sizes 2 and 2 whose union has size 3. -/
theorem score_union_of_overlaps_witness :
    ("t1", vA) ∈ processStudent envA ["r1", "r2"] ["t1"] ∧
    envA.fileData "t1" = some ⟨[10]⟩ ∧
    (vA.score =
        ((overlapUnion envA "t1" (qualifyingRefs envA "t1" ["r1", "r2"])).card : ℚ) /
          (((⟨[10]⟩ : FileInfo)).hashes.length : ℚ) ∧
      ∀ refs', (["r1", "r2"] : List String).Perm refs' →
        ∃ v', processTestFile envA "t1" refs' = some v' ∧ v'.score = vA.score) :=
  ⟨by
      have h : processStudent envA ["r1", "r2"] ["t1"] = [("t1", vA)] := rfl
      rw [h]
      exact List.mem_singleton.mpr rfl,
    rfl,
    score_union_of_overlaps envA ["r1", "r2"] ["t1"] "t1" vA ⟨[10]⟩
      (by
        have h : processStudent envA ["r1", "r2"] ["t1"] = [("t1", vA)] := rfl
        rw [h]
        exact List.mem_singleton.mpr rfl)
      rfl⟩

/-! ### C6: flush cadence -/

/-- Batch-size bookkeeping of the student loop: starting below the
flush threshold, after `n` further non-checkpointed students the
pending batch holds `(start + n) % f` entries, `(start + n) / f` new
automatic flushes have happened, and every new flushed batch has
exactly `f` entries. -/
theorem runLoop_batch_aux (env : DetectorEnv) (refs : List String)
    (ckpt : String → Bool) (f : Nat) (hf : 0 < f) :
    ∀ (students : List (String × List String)) (st : LoopState),
      (∀ p ∈ students, ckpt p.1 = false) →
      st.userReports.length < f →
      ((students.foldl (runStep env refs ckpt f) st).userReports.length =
          (st.userReports.length + students.length) % f ∧
        (students.foldl (runStep env refs ckpt f) st).autoFlushes.length =
          st.autoFlushes.length + (st.userReports.length + students.length) / f ∧
        ∀ b ∈ (students.foldl (runStep env refs ckpt f) st).autoFlushes,
          b ∈ st.autoFlushes ∨ b.length = f) := by
  intro students
  induction students with
  | nil =>
    intro st _ hlt
    refine ⟨?_, ?_, fun b hb => Or.inl hb⟩
    · simp [Nat.mod_eq_of_lt hlt]
    · simp [Nat.div_eq_of_lt hlt]
  | cons p ps ih =>
    intro st hck hlt
    have hckp : ckpt p.1 = false := hck p (by simp)
    have hckps : ∀ q ∈ ps, ckpt q.1 = false := fun q hq => hck q (by simp [hq])
    rw [List.foldl_cons]
    by_cases hflush : st.userReports.length + 1 = f
    · obtain ⟨x, h2a, h2b⟩ : ∃ x, (runStep env refs ckpt f st p).userReports = [] ∧
          (runStep env refs ckpt f st p).autoFlushes =
            st.autoFlushes ++ [st.userReports ++ [x]] := by
        refine ⟨(p.1, if processStudent env refs p.2 = [] then ""
          else reportLocation p.1), ?_, ?_⟩ <;>
          simp [runStep, hckp, hflush]
      obtain ⟨h1, h2, h3⟩ := ih (runStep env refs ckpt f st p) hckps
        (by rw [h2a]; simpa using hf)
      rw [h2a] at h1 h2
      rw [h2b] at h2 h3
      simp only [List.length_nil, Nat.zero_add, List.length_append,
        List.length_singleton, List.length_cons] at h1 h2 ⊢
      have hdiv : (ps.length + f) / f = ps.length / f + 1 := Nat.add_div_right _ hf
      have hmod : (ps.length + f) % f = ps.length % f := Nat.add_mod_right _ _
      have heq : st.userReports.length + (ps.length + 1) = ps.length + f := by
        omega
      refine ⟨?_, ?_, ?_⟩
      · rw [h1, heq, hmod]
      · rw [h2, heq, hdiv]
        omega
      · intro b hb
        rcases h3 b hb with hb' | hb'
        · rcases List.mem_append.mp hb' with hb'' | hb''
          · exact Or.inl hb''
          · right
            rw [List.mem_singleton.mp hb'']
            simpa using hflush
        · exact Or.inr hb'
    · obtain ⟨x, h2a, h2b⟩ : ∃ x, (runStep env refs ckpt f st p).userReports =
          st.userReports ++ [x] ∧
          (runStep env refs ckpt f st p).autoFlushes = st.autoFlushes := by
        refine ⟨(p.1, if processStudent env refs p.2 = [] then ""
          else reportLocation p.1), ?_, ?_⟩ <;>
          simp [runStep, hckp, hflush]
      obtain ⟨h1, h2, h3⟩ := ih (runStep env refs ckpt f st p) hckps
        (by rw [h2a]; simp only [List.length_append, List.length_singleton]; omega)
      rw [h2a] at h1 h2
      rw [h2b] at h2 h3
      simp only [List.length_append, List.length_singleton, List.length_cons,
        List.length_nil, Nat.zero_add] at h1 h2 ⊢
      have heq : st.userReports.length + 1 + ps.length =
          st.userReports.length + (ps.length + 1) := by
        omega
      refine ⟨?_, ?_, ?_⟩
      · rw [h1, heq]
      · rw [h2, heq]
      · intro b hb
        exact h3 b hb

/-- C6: over `n` completed (non-checkpointed) students with a positive
`updateFrequency` `f`, the loop flushes automatically exactly `n / f`
times, every automatically flushed batch holds exactly `f` reports, and
one final flush happens exactly when the remainder `n % f` is
non-zero. -/
theorem flush_cadence :
    ∀ (env : DetectorEnv) (refs : List String) (ckpt : String → Bool)
      (f : Nat) (students : List (String × List String)),
      0 < f →
      (∀ p ∈ students, ckpt p.1 = false) →
      ((runLoop env refs ckpt f students).state.autoFlushes.length =
          students.length / f ∧
        (∀ b ∈ (runLoop env refs ckpt f students).state.autoFlushes,
          b.length = f) ∧
        ((runLoop env refs ckpt f students).finalFlush ≠ none ↔
          students.length % f ≠ 0)) := by
  intro env refs ckpt f students hf hck
  have h := runLoop_batch_aux env refs ckpt f hf students ⟨[], [], [], 0⟩ hck
    (by simpa using hf)
  obtain ⟨h1, h2, h3⟩ := h
  simp only [List.length_nil, Nat.zero_add] at h1 h2
  refine ⟨?_, ?_, ?_⟩
  · rw [runLoop]
    simpa using h2
  · intro b hb
    rcases h3 b hb with hb' | hb'
    · exact absurd hb' (List.not_mem_nil b)
    · exact hb'
  · rw [runLoop]
    by_cases hempty :
        (students.foldl (runStep env refs ckpt f) ⟨[], [], [], 0⟩).userReports = []
    · simp only [hempty, if_pos rfl]
      have : students.length % f = 0 := by
        rw [← h1, hempty]
        rfl
      simp [this]
    · simp only [if_neg hempty]
      have : students.length % f ≠ 0 := by
        rw [← h1]
        simpa [List.length_eq_zero] using hempty
      simp [this, hempty]

/-- Witness for C6: three clean students with `updateFrequency` 2 give
one automatic flush of two reports and a final flush for the
remainder. -/
theorem flush_cadence_witness :
    (0 < 2) ∧
    ((runLoop envC ["r1"] (fun _ => false) 2
        [("1", ["t1"]), ("2", ["t1"]), ("3", ["t1"])]).state.autoFlushes.length =
      ([("1", ["t1"]), ("2", ["t1"]), ("3", ["t1"])] :
        List (String × List String)).length / 2 ∧
      (∀ b ∈ (runLoop envC ["r1"] (fun _ => false) 2
          [("1", ["t1"]), ("2", ["t1"]), ("3", ["t1"])]).state.autoFlushes,
        b.length = 2) ∧
      ((runLoop envC ["r1"] (fun _ => false) 2
          [("1", ["t1"]), ("2", ["t1"]), ("3", ["t1"])]).finalFlush ≠ none ↔
        ([("1", ["t1"]), ("2", ["t1"]), ("3", ["t1"])] :
          List (String × List String)).length % 2 ≠ 0)) :=
  ⟨by decide,
    flush_cadence envC ["r1"] (fun _ => false) 2
      [("1", ["t1"]), ("2", ["t1"]), ("3", ["t1"])] (by decide) (by decide)⟩

end CodePlag
